import Mathlib

/-!
Verification of the password policy engine (`password/password.go`).

Go strings are byte strings; they are embedded here as `List Nat`, one entry
per byte.  `len(s)` in Go is the byte length, i.e. `s.length` here.  The
character-class helpers in the source iterate over runes (`for _, char :=
range s`), but every class they test for is an ASCII range, and in UTF-8 every
byte of a multi-byte rune (and every byte of an invalid sequence, which Go
decodes as U+FFFD) is >= 0x80, outside all of those ranges; hence iterating
over bytes is extensionally the same test, and the embedding iterates bytes.

Machine integers: `MinLength`, `MaxLength` and `BcryptCost` are Go `int`
fields and are embedded as `Int` (no arithmetic in the source can overflow
them).  Byte values and indices are embedded as `Nat`.
-/

namespace Password

/-- Bytes of an ASCII string literal (used only on ASCII literals, where the
UTF-8 bytes coincide with the code points). -/
def strBytes (s : String) : List Nat := s.data.map Char.toNat

/-- Decimal digits of a natural number, as ASCII bytes (Go `%d`). -/
def natBytes (n : Nat) : List Nat := (Nat.toDigits 10 n).map Char.toNat

/-- Decimal rendering of a Go `int` under `fmt.Sprintf("%d", ·)`, as ASCII
bytes; 45 is the minus sign. -/
def intBytes (m : Int) : List Nat :=
  if m < 0 then 45 :: natBytes m.natAbs else natBytes m.natAbs

/-- Character set `"abcdefghijklmnopqrstuvwxyz"` from
`GenerateRandomPassword`, as bytes 97..122. -/
def lowercaseChars : List Nat := (List.range 26).map (fun k => 97 + k)

/-- Character set `"ABCDEFGHIJKLMNOPQRSTUVWXYZ"`, as bytes 65..90. -/
def uppercaseChars : List Nat := (List.range 26).map (fun k => 65 + k)

/-- Character set `"0123456789"`, as bytes 48..57. -/
def digitChars : List Nat := (List.range 10).map (fun k => 48 + k)

/-- Character set of the special characters used both by `containsSpecial`
and by `GenerateRandomPassword`, in source order (byte values of
`! @ # $ % ^ & * ( ) _ + - = [ ] (left brace) (right brace) | ; : , . < > ?`). -/
def specialChars : List Nat :=
  [33, 64, 35, 36, 37, 94, 38, 42, 40, 41, 95, 43, 45, 61, 91, 93,
   123, 125, 124, 59, 58, 44, 46, 60, 62, 63]

/-- Source helper `containsUpper`: some character lies in `'A'..'Z'`. -/
def containsUpper (s : List Nat) : Bool :=
  s.any (fun c => 65 ≤ c && c ≤ 90)

/-- Source helper `containsLower`: some character lies in `'a'..'z'`. -/
def containsLower (s : List Nat) : Bool :=
  s.any (fun c => 97 ≤ c && c ≤ 122)

/-- Source helper `containsDigit`: some character lies in `'0'..'9'`. -/
def containsDigit (s : List Nat) : Bool :=
  s.any (fun c => 48 ≤ c && c ≤ 57)

/-- Source helper `containsSpecial`: some character equals one of
`specialChars`. -/
def containsSpecial (s : List Nat) : Bool :=
  s.any (fun c => specialChars.any (fun sp => c == sp))

/-- Source helper `hasRepeatingChars`: three identical consecutive bytes
(the source indexes bytes directly: `s[i] == s[i+1] && s[i+1] == s[i+2]`). -/
def hasRepeatingChars (s : List Nat) : Bool :=
  if s.length < 3 then false
  else (List.range (s.length - 2)).any (fun i =>
    (s.getD i 0 == s.getD (i + 1) 0) && (s.getD (i + 1) 0 == s.getD (i + 2) 0))

/-- Byte-wise model of `strings.ToLower` restricted to ASCII: bytes 65..90
map to 97..122.  Go's `strings.ToLower` is Unicode-aware, but it agrees with
this on ASCII bytes, and every pattern it is compared against below
(`containsSequence`) is pure ASCII. -/
def asciiToLower (s : List Nat) : List Nat :=
  s.map (fun c => if 65 ≤ c && c ≤ 90 then c + 32 else c)

/-- Model of `startsWith`-style prefix test used to implement
`strings.Contains` below. -/
def startsWith : List Nat → List Nat → Bool
  | _, [] => true
  | [], _ :: _ => false
  | a :: s, b :: t => a == b && startsWith s t

/-- Model of `strings.Contains s sub`: `sub` occurs as a contiguous
substring of `s` (the empty pattern always occurs). -/
def hasSubstring : List Nat → List Nat → Bool
  | [], sub => sub.isEmpty
  | a :: rest, sub => startsWith (a :: rest) sub || hasSubstring rest sub

/-- Source helper `containsSequence s sequence length`: some slice
`sequence[i : i+length]` (for `0 ≤ i ≤ len(sequence)-length`) occurs in
`strings.ToLower(s)`.  When `length > len(sequence)` the Go loop body never
runs, which `List.range (seq.length + 1 - length)` reproduces. -/
def containsSequence (s seq : List Nat) (length : Nat) : Bool :=
  (List.range (seq.length + 1 - length)).any (fun i =>
    hasSubstring (asciiToLower s) ((seq.drop i).take length))

/-- Source helper `reverse` (rune reversal; all sequences it is applied to
are ASCII, where rune reversal is byte reversal). -/
def reverseSeq (s : List Nat) : List Nat := s.reverse

/-- Byte string `"qwertyuiopasdfghjklzxcvbnm"` (keyboard layout row used by
`hasSequentialChars`). -/
def qwertyChars : List Nat :=
  [113, 119, 101, 114, 116, 121, 117, 105, 111, 112, 97, 115, 100, 102,
   103, 104, 106, 107, 108, 122, 120, 99, 118, 98, 110, 109]

/-- Source helper `hasSequentialChars`: some 3-byte slice of one of the four
fixed sequences, read forward or reversed, occurs in the lowered string. -/
def hasSequentialChars (s : List Nat) : Bool :=
  if s.length < 3 then false
  else
    [lowercaseChars, uppercaseChars, digitChars, qwertyChars].any (fun seq =>
      containsSequence s seq 3 || containsSequence s (reverseSeq seq) 3)

/-- Go struct `Config` (`password.Config`); the three `int` fields are
embedded as `Int`, the four `bool` fields as `Bool`. -/
structure Config where
  MinLength : Int
  MaxLength : Int
  RequireUpper : Bool
  RequireLower : Bool
  RequireDigit : Bool
  RequireSpecial : Bool
  BcryptCost : Int
deriving DecidableEq

/-- Go struct `Manager`, wrapping its `config`. -/
structure Manager where
  config : Config
deriving DecidableEq

/-- Go enum `PasswordStrength` (`StrengthWeak .. StrengthVeryStrong`). -/
inductive PasswordStrength where
  | StrengthWeak
  | StrengthFair
  | StrengthGood
  | StrengthStrong
  | StrengthVeryStrong
deriving DecidableEq

/-- Go struct `PasswordValidation`; `Errors` and `Suggestions` are `[]string`,
embedded as lists of byte strings. -/
structure PasswordValidation where
  valid : Bool
  strength : PasswordStrength
  score : Nat
  errors : List (List Nat)
  suggestions : List (List Nat)
deriving DecidableEq

/-- Go constructor `NewWithConfig`: zero-valued `MinLength`, `MaxLength`,
`BcryptCost` replaced by 8, 128, 12, then the cost clamped into `[4, 31]`,
by five sequential in-place updates. -/
def NewWithConfig (config : Config) : Manager :=
  let config := if config.MinLength = 0 then { config with MinLength := 8 } else config
  let config := if config.MaxLength = 0 then { config with MaxLength := 128 } else config
  let config := if config.BcryptCost = 0 then { config with BcryptCost := 12 } else config
  let config := if config.BcryptCost < 4 then { config with BcryptCost := 4 } else config
  let config := if config.BcryptCost > 31 then { config with BcryptCost := 31 } else config
  ⟨config⟩

/-- Default configuration passed by the Go constructor `New`:
`MinLength 8, MaxLength 128, RequireUpper, RequireLower, RequireDigit,
not RequireSpecial, BcryptCost 12`. -/
def defaultNewCfg : Config := ⟨8, 128, true, true, true, false, 12⟩

/-- Go constructor `New`: `NewWithConfig` on the explicit default
configuration. -/
def New : Manager := NewWithConfig defaultNewCfg

/-- Go method `Manager.UpdateConfig`: stores the given config verbatim
(no defaulting, no clamping). -/
def Manager.UpdateConfig (pm : Manager) (config : Config) : Manager :=
  { pm with config := config }

/-- Go method `Manager.GetConfig`. -/
def Manager.GetConfig (pm : Manager) : Config := pm.config

/-- Error message built by `fmt.Sprintf("Password must be at least %d characters long", MinLength)`. -/
def tooShortMsg (m : Int) : List Nat :=
  strBytes "Password must be at least " ++ intBytes m ++ strBytes " characters long"

/-- Error message built by `fmt.Sprintf("Password must not exceed %d characters", MaxLength)`. -/
def tooLongMsg (m : Int) : List Nat :=
  strBytes "Password must not exceed " ++ intBytes m ++ strBytes " characters"

/-- Error message for a missing uppercase letter. -/
def upperMsg : List Nat := strBytes "Password must contain at least one uppercase letter"

/-- Error message for a missing lowercase letter. -/
def lowerMsg : List Nat := strBytes "Password must contain at least one lowercase letter"

/-- Error message for a missing digit. -/
def digitMsg : List Nat := strBytes "Password must contain at least one digit"

/-- Error message for a missing special character. -/
def specialMsg : List Nat := strBytes "Password must contain at least one special character"

/-- Suggestion `"Use a longer password"`. -/
def sugLonger : List Nat := strBytes "Use a longer password"

/-- Suggestion `"Add uppercase letters (A-Z)"`. -/
def sugUpper : List Nat := strBytes "Add uppercase letters (A-Z)"

/-- Suggestion `"Add lowercase letters (a-z)"`. -/
def sugLower : List Nat := strBytes "Add lowercase letters (a-z)"

/-- Suggestion `"Add numbers (0-9)"`. -/
def sugDigit : List Nat := strBytes "Add numbers (0-9)"

/-- Suggestion `"Add special characters (!@#$%^&*)"`. -/
def sugSpecial : List Nat := strBytes "Add special characters (!@#$%^&*)"

/-- Guarded increment `if cond then score += k` of `calculateStrength`. -/
def addIf (c : Prop) [Decidable c] (k score : Nat) : Nat :=
  if c then score + k else score

/-- Score accumulation of `Manager.calculateStrength` (the sequence of
`if cond { score += k }` statements, in source order). -/
def calculateScore (password : List Nat) : Nat :=
  let score := 0
  let length := password.length
  let score := addIf (length ≥ 8) 1 score
  let score := addIf (length ≥ 12) 1 score
  let score := addIf (length ≥ 16) 1 score
  let score := addIf (containsLower password = true) 1 score
  let score := addIf (containsUpper password = true) 1 score
  let score := addIf (containsDigit password = true) 1 score
  let score := addIf (containsSpecial password = true) 2 score
  let score := addIf (hasRepeatingChars password = false) 1 score
  let score := addIf (hasSequentialChars password = false) 1 score
  score

/-- Go method `Manager.calculateStrength`: the additive score and the tier
thresholds (>= 9 VeryStrong, >= 7 Strong, >= 5 Good, >= 3 Fair, else Weak). -/
def Manager.calculateStrength (_pm : Manager) (password : List Nat) :
    PasswordStrength × Nat :=
  let score := calculateScore password
  if score ≥ 9 then (.StrengthVeryStrong, score)
  else if score ≥ 7 then (.StrengthStrong, score)
  else if score ≥ 5 then (.StrengthGood, score)
  else if score ≥ 3 then (.StrengthFair, score)
  else (.StrengthWeak, score)

/-- Go method `Manager.Validate`: starts from `Valid = true`, runs the two
length checks and the four class checks in source order, each appending its
message (and suggestion) and clearing `Valid`, then fills in strength and
score from `calculateStrength`. -/
def Manager.Validate (pm : Manager) (password : List Nat) : PasswordValidation :=
  let v : PasswordValidation :=
    { valid := true, strength := .StrengthWeak, score := 0, errors := [], suggestions := [] }
  let v := if (password.length : Int) < pm.config.MinLength then
      { v with valid := false,
               errors := v.errors ++ [tooShortMsg pm.config.MinLength],
               suggestions := v.suggestions ++ [sugLonger] } else v
  let v := if (password.length : Int) > pm.config.MaxLength then
      { v with valid := false,
               errors := v.errors ++ [tooLongMsg pm.config.MaxLength] } else v
  let v := if pm.config.RequireUpper && !containsUpper password then
      { v with valid := false,
               errors := v.errors ++ [upperMsg],
               suggestions := v.suggestions ++ [sugUpper] } else v
  let v := if pm.config.RequireLower && !containsLower password then
      { v with valid := false,
               errors := v.errors ++ [lowerMsg],
               suggestions := v.suggestions ++ [sugLower] } else v
  let v := if pm.config.RequireDigit && !containsDigit password then
      { v with valid := false,
               errors := v.errors ++ [digitMsg],
               suggestions := v.suggestions ++ [sugDigit] } else v
  let v := if pm.config.RequireSpecial && !containsSpecial password then
      { v with valid := false,
               errors := v.errors ++ [specialMsg],
               suggestions := v.suggestions ++ [sugSpecial] } else v
  let sc := pm.calculateStrength password
  { v with strength := sc.1, score := sc.2 }

example :
    ((New.Validate (strBytes "Password1")).valid, (New.Validate (strBytes "Password1")).score)
      = (true, 5) := by decide

example : (New.Validate (strBytes "password")).valid = false := by decide

/-- Modelled from the spec: the encoded hash string handled by `Verify`,
`NeedsRehash` and produced by the external adaptive-hash primitive
(`golang.org/x/crypto/bcrypt`, not part of this repository).  Per spec
sections 3/6 and the glossary, an encoded hash is a single self-describing
string carrying algorithm, cost, salt and digest; any other string is either
empty or structurally unreadable.  The three constructors model those three
shapes; a well-formed encoding is never the empty string. -/
inductive EncodedHash where
  | emptyStr
  | bcryptEncoded (cost : Int) (salt : Nat) (digest : List Nat)
  | unparsable (raw : List Nat)
deriving DecidableEq

/-- Modelled from the spec: the digest stored inside a bcrypt encoding, as a
function of plaintext, cost and salt.  The spec (section 4.1, glossary)
specifies only that the primitive's own compare succeeds exactly on the
original plaintext, i.e. the digest is collision-free in the plaintext; the
model realises that contract by keeping the plaintext itself as the digest
(the primitive's one-wayness is irrelevant to the properties proved here). -/
def bcryptDigest (password : List Nat) (_cost : Int) (_salt : Nat) : List Nat :=
  password

/-- Errors of the external bcrypt library that the source distinguishes:
`bcrypt.ErrMismatchedHashAndPassword`, an invalid-cost error from
`GenerateFromPassword`, and the parse errors (`ErrHashTooShort` etc.) raised
on a structurally unreadable hash. -/
inductive BcryptErr where
  | mismatchedHashAndPassword
  | invalidCost (cost : Int)
  | hashParseError
deriving DecidableEq

/-- Modelled from the spec: `bcrypt.GenerateFromPassword`.  The library
replaces a cost below the minimum 4 by its default 10, rejects a cost above
31, and otherwise draws a fresh random salt (made an explicit argument here)
and produces the self-describing encoding. -/
def bcryptGenerateFromPassword (password : List Nat) (cost : Int) (salt : Nat) :
    Except BcryptErr EncodedHash :=
  if cost > 31 then .error (.invalidCost cost)
  else
    let cost := if cost < 4 then 10 else cost
    .ok (.bcryptEncoded cost salt (bcryptDigest password cost salt))

/-- Modelled from the spec: `bcrypt.CompareHashAndPassword`; returns `none`
on success.  An empty or unreadable hash fails to parse;
a well-formed hash mismatches exactly when its digest is not the digest of
the offered password (spec section 4.1: the compare primitive succeeds
exactly on the original plaintext). -/
def bcryptCompareHashAndPassword (hash : EncodedHash) (password : List Nat) :
    Option BcryptErr :=
  match hash with
  | .emptyStr => some .hashParseError
  | .unparsable _ => some .hashParseError
  | .bcryptEncoded c s d =>
      if d = bcryptDigest password c s then none else some .mismatchedHashAndPassword

/-- Modelled from the spec: `bcrypt.Cost` reads the cost embedded in a
well-formed encoding and fails on anything else. -/
def bcryptCost (hash : EncodedHash) : Except BcryptErr Int :=
  match hash with
  | .bcryptEncoded c _ _ => .ok c
  | _ => .error .hashParseError

/-- Go struct `HashedPassword`; `CreatedAt` (`time.Now()`) is an opaque
timestamp passed in by the caller of the embedding. -/
structure HashedPassword where
  Hash : EncodedHash
  Algorithm : String
  Cost : Int
  CreatedAt : Int
deriving DecidableEq

/-- Errors returned by `Manager.Hash` and `Manager.Verify`.
`passwordTooWeak` is `fmt.Errorf("%w: %s", ErrPasswordTooWeak, joined)` (the
spec's `PolicyViolation`), carrying the comma-joined violation messages;
`hashingFailed` wraps a bcrypt generation error; `invalidHash` is
`ErrInvalidHash`; `verificationFailed` is the bare `ErrVerificationFailed`;
`verificationFailedWrapped` is `fmt.Errorf("%w: %v", ErrVerificationFailed,
err)` for a non-mismatch compare error — a distinct error value that still
matches `ErrVerificationFailed` under `errors.Is`. -/
inductive PwErr where
  | passwordTooWeak (joined : List Nat)
  | hashingFailed (e : BcryptErr)
  | invalidHash
  | verificationFailed
  | verificationFailedWrapped (e : BcryptErr)
deriving DecidableEq

/-- Comma-space separator of `strings.Join(validation.Errors, ", ")`. -/
def joinedErrors (msgs : List (List Nat)) : List Nat :=
  List.intercalate [44, 32] msgs

/-- Go method `Manager.Hash`: validates first and, if invalid, fails with
the wrapped `ErrPasswordTooWeak` carrying the joined messages; otherwise
invokes bcrypt with the configured cost (`salt` and `now` stand for the
salt drawn inside bcrypt and for `time.Now()`). -/
def Manager.Hash (pm : Manager) (password : List Nat) (salt : Nat) (now : Int) :
    Except PwErr HashedPassword :=
  let validation := pm.Validate password
  if !validation.valid then
    .error (.passwordTooWeak (joinedErrors validation.errors))
  else
    match bcryptGenerateFromPassword password pm.config.BcryptCost salt with
    | .error e => .error (.hashingFailed e)
    | .ok hashBytes =>
        .ok { Hash := hashBytes, Algorithm := "bcrypt",
              Cost := pm.config.BcryptCost, CreatedAt := now }

/-- Go method `Manager.Verify`: empty hash fails with `ErrInvalidHash`;
a compare mismatch fails with the bare `ErrVerificationFailed`; any other
compare error is wrapped around `ErrVerificationFailed`; returns `none`
(nil) on success. -/
def Manager.Verify (_pm : Manager) (password : List Nat) (hash : EncodedHash) :
    Option PwErr :=
  if hash = .emptyStr then some .invalidHash
  else
    match bcryptCompareHashAndPassword hash password with
    | some .mismatchedHashAndPassword => some .verificationFailed
    | some e => some (.verificationFailedWrapped e)
    | none => none

/-- Go method `Manager.NeedsRehash`: true when the embedded cost cannot be
read or differs from the configured cost. -/
def Manager.NeedsRehash (pm : Manager) (hash : EncodedHash) : Bool :=
  match bcryptCost hash with
  | .error _ => true
  | .ok cost => cost != pm.config.BcryptCost

/-- Source helper `randomInt`, with the entropy source made explicit: `r` is
the value of the four random bytes combined (`int(b0)<<24 | ... | int(b3)`,
always in `[0, 2^32)` on a 64-bit Go `int`, so the `n < 0` branch of the
source is dead and `n % max` lands in `[0, max)`), and the time-based
fallback value is covered by the same quantification over `r`.  Returns `0`
when `max ≤ 0`. -/
def randomInt (r : Nat) (max : Nat) : Nat :=
  if max = 0 then 0 else r % max

/-- The enabled character classes of a config, in the order the source
consults them (`lower`, `upper`, `digit`, `special`). -/
def enabledClasses (cfg : Config) : List (List Nat) :=
  (if cfg.RequireLower then [lowercaseChars] else []) ++
  (if cfg.RequireUpper then [uppercaseChars] else []) ++
  (if cfg.RequireDigit then [digitChars] else []) ++
  (if cfg.RequireSpecial then [specialChars] else [])

/-- Number of enabled required classes. -/
def enabledCount (cfg : Config) : Nat := (enabledClasses cfg).length

/-- The `required` slice of `GenerateRandomPassword`: one random character
drawn from each enabled class, the `i`-th draw consuming the `i`-th random
value. -/
def drawRequired (σ : Nat → Nat) : Nat → List (List Nat) → List Nat
  | _, [] => []
  | i, cls :: rest => cls.getD (randomInt (σ i) cls.length) 0 :: drawRequired σ (i + 1) rest

/-- Swap of two positions of a list (the in-place
`password[i], password[j] = password[j], password[i]` of the shuffle loop);
out-of-range positions leave the list unchanged (they never occur in the
source's loop). -/
def listSwap (l : List Nat) (i j : Nat) : List Nat :=
  match l[i]?, l[j]? with
  | some a, some b => (l.set i b).set j a
  | _, _ => l

/-- Clamp of the requested length into `[MinLength, MaxLength]`: the two
`if` statements at the top of `GenerateRandomPassword`. -/
def clampLen (cfg : Config) (length : Int) : Int :=
  let l := if length < cfg.MinLength then cfg.MinLength else length
  if l > cfg.MaxLength then cfg.MaxLength else l

/-- Placement loops of `GenerateRandomPassword`: `password := make([]byte,
n)` followed by placing `required[k]` at each position `k < len(required)`
and filling each remaining position from `charset`.  The fill loop runs
`i = len(required) .. n-1`, its iteration for position `k` consuming raw
random value `σ k` (indices `0 .. len(required)-1` went to the required
draws). -/
def placeAndFill (σ : Nat → Nat) (required charset : List Nat) (n : Nat) : List Nat :=
  (List.range n).map (fun k =>
    if k < required.length then required.getD k 0
    else charset.getD (randomInt (σ k) charset.length) 0)

/-- Shuffle loop of `GenerateRandomPassword`: for each position `i`, draw
`j := randomInt(len(password))` — consuming raw value `σ (base + i)` — and
swap positions `i` and `j`. -/
def shuffleAll (σ : Nat → Nat) (base : Nat) (l : List Nat) : List Nat :=
  (List.range l.length).foldl
    (fun acc i => listSwap acc i (randomInt (σ (base + i)) l.length)) l

/-- Go method `Manager.GenerateRandomPassword`, with the random source made
explicit: `σ k` is the raw value behind the `k`-th `randomInt` call (see
`randomInt`).  The draws happen in source order: one per enabled class, then
one per filled position, then one per shuffle step.  Returns `none` exactly
when the clamped length is negative, where `make([]byte, length)` would
panic. -/
def Manager.GenerateRandomPassword (pm : Manager) (length : Int) (σ : Nat → Nat) :
    Option (List Nat) :=
  let cfg := pm.config
  let length := clampLen cfg length
  let classes := enabledClasses cfg
  let required := drawRequired σ 0 classes
  let charset0 := classes.flatten
  let charset := if charset0 = [] then lowercaseChars ++ uppercaseChars ++ digitChars
                 else charset0
  if length < 0 then none
  else
    let n := length.toNat
    let filled := placeAndFill σ required charset n
    some (shuffleAll σ (required.length + (n - required.length)) filled)

/-- Managers reachable through the public construction and reconfiguration
surface: `New`, `NewWithConfig`, and any sequence of `UpdateConfig` calls. -/
inductive ReachableManager : Manager → Prop where
  | new : ReachableManager New
  | newWithConfig (cfg : Config) : ReachableManager (NewWithConfig cfg)
  | update {m : Manager} (cfg : Config) :
      ReachableManager m → ReachableManager (m.UpdateConfig cfg)

/-- Source helper `randomInt` with both entropy branches explicit, for the
degraded-mode analysis: `readOk` tells whether `crypto/rand.Read` succeeded,
`b0..b3` are the four secure random bytes, `nowNano` is
`time.Now().UnixNano()`.  `Int.tmod` is Go's truncated `%`.  The byte
combination `int(b0)<<24 | int(b1)<<16 | int(b2)<<8 | int(b3)` is the sum of
the shifted bytes (the shifted summands occupy disjoint bits); on 64-bit Go
ints it is never negative, so `if n < 0` never fires. -/
def randomIntGo (readOk : Bool) (b0 b1 b2 b3 : Nat) (nowNano : Int) (max : Int) : Int :=
  if max ≤ 0 then 0
  else if !readOk then nowNano.tmod max
  else
    let n : Int := ((b0 % 256) * 2 ^ 24 + (b1 % 256) * 2 ^ 16 + (b2 % 256) * 2 ^ 8 + (b3 % 256) : Nat)
    let n := if n < 0 then -n else n
    n.tmod max

/-- Count of UTF-8 encoded characters of a byte string: the bytes that are
not continuation bytes (`0x80..0xBF`). -/
def utf8RuneCount (s : List Nat) : Nat :=
  (s.filter (fun b => !(128 ≤ b && b ≤ 191))).length

/-- Validity of a byte string as UTF-8 (the shapes a Go source literal can
have): ASCII, or a 2-, 3- or 4-byte sequence with the standard lead/
continuation ranges, excluding overlong forms, surrogates and values above
U+10FFFF. -/
def isValidUtf8 : List Nat → Bool
  | [] => true
  | b :: rest =>
    if b ≤ 127 then isValidUtf8 rest
    else
      match rest with
      | c1 :: rest1 =>
        if 194 ≤ b && b ≤ 223 then
          (128 ≤ c1 && c1 ≤ 191) && isValidUtf8 rest1
        else
          match rest1 with
          | c2 :: rest2 =>
            if b = 224 then
              (160 ≤ c1 && c1 ≤ 191) && (128 ≤ c2 && c2 ≤ 191) && isValidUtf8 rest2
            else if (225 ≤ b && b ≤ 236) || b = 238 || b = 239 then
              (128 ≤ c1 && c1 ≤ 191) && (128 ≤ c2 && c2 ≤ 191) && isValidUtf8 rest2
            else if b = 237 then
              (128 ≤ c1 && c1 ≤ 159) && (128 ≤ c2 && c2 ≤ 191) && isValidUtf8 rest2
            else
              match rest2 with
              | c3 :: rest3 =>
                if b = 240 then
                  (144 ≤ c1 && c1 ≤ 191) && (128 ≤ c2 && c2 ≤ 191) &&
                    (128 ≤ c3 && c3 ≤ 191) && isValidUtf8 rest3
                else if 241 ≤ b && b ≤ 243 then
                  (128 ≤ c1 && c1 ≤ 191) && (128 ≤ c2 && c2 ≤ 191) &&
                    (128 ≤ c3 && c3 ≤ 191) && isValidUtf8 rest3
                else if b = 244 then
                  (128 ≤ c1 && c1 ≤ 143) && (128 ≤ c2 && c2 ≤ 191) &&
                    (128 ≤ c3 && c3 ≤ 191) && isValidUtf8 rest3
                else false
              | [] => false
          | [] => false
      | [] => false

/-- Byte string of the Go literal `"éééé"`: four 2-byte UTF-8 characters. -/
def multiBytePw : List Nat := [195, 169, 195, 169, 195, 169, 195, 169]

example : isValidUtf8 multiBytePw = true := by decide

example : (utf8RuneCount multiBytePw, multiBytePw.length) = (4, 8) := by decide

/-- Configuration with a minimum and maximum length of 2 and all four
character classes required (all values non-zero, so construction keeps them). -/
def tightCfg : Config :=
  ⟨2, 2, true, true, true, true, 10⟩

example :
    (NewWithConfig tightCfg).GenerateRandomPassword 2 (fun _ => 0) = some [65, 97] := by decide

example : (New.Validate (strBytes "aB1!aB1!aB1!aB1!")).score = 10 := by decide

/-- Cost of a freshly constructed manager always lies in the bcrypt range. -/
theorem newWithConfig_cost_bounds (cfg : Config) :
    4 ≤ (NewWithConfig cfg).config.BcryptCost ∧
      (NewWithConfig cfg).config.BcryptCost ≤ 31 := by
  simp only [NewWithConfig]
  split_ifs <;> simp_all

/-- The valid flag computed by `Validate` holds exactly when both length
bounds and all enabled class requirements are met. -/
theorem validate_valid_iff_aux (pm : Manager) (p : List Nat) :
    (pm.Validate p).valid = true ↔
      (pm.config.MinLength ≤ (p.length : Int) ∧ (p.length : Int) ≤ pm.config.MaxLength ∧
       (pm.config.RequireUpper = true → containsUpper p = true) ∧
       (pm.config.RequireLower = true → containsLower p = true) ∧
       (pm.config.RequireDigit = true → containsDigit p = true) ∧
       (pm.config.RequireSpecial = true → containsSpecial p = true)) := by
  simp only [Manager.Validate]
  split_ifs <;> simp_all

/-- The score reported by `Validate` is the one computed by
`calculateStrength`. -/
theorem validate_score_eq (pm : Manager) (p : List Nat) :
    (pm.Validate p).score = (pm.calculateStrength p).2 := rfl

/-- Configuration of the C6 counterexample: all fields at their defaults
except a bcrypt cost of 99. -/
def badCostCfg : Config := ⟨8, 128, true, true, true, false, 99⟩

/-- C6 counterexample: `UpdateConfig` stores the cost 99 verbatim, so a
reachable manager violates the claimed `[4, 31]` cost invariant. -/
theorem cost_range_counterexample :
    ReachableManager (New.UpdateConfig badCostCfg) ∧
      ¬(4 ≤ (New.UpdateConfig badCostCfg).config.BcryptCost ∧
        (New.UpdateConfig badCostCfg).config.BcryptCost ≤ 31) :=
  ⟨.update badCostCfg .new, by decide⟩

/-- C6 (amended): the `[4, 31]` cost invariant and the zero-value defaults
(8, 128, 12) hold for every manager produced by `New` or `NewWithConfig`,
but `UpdateConfig` replaces the configuration verbatim — without clamping or
defaulting — so the invariant does not survive arbitrary `UpdateConfig`
calls. -/
theorem cost_range_construction :
    (∀ cfg : Config, 4 ≤ (NewWithConfig cfg).config.BcryptCost ∧
        (NewWithConfig cfg).config.BcryptCost ≤ 31) ∧
    (4 ≤ New.config.BcryptCost ∧ New.config.BcryptCost ≤ 31) ∧
    (∀ cfg : Config,
        (cfg.MinLength = 0 → (NewWithConfig cfg).config.MinLength = 8) ∧
        (cfg.MaxLength = 0 → (NewWithConfig cfg).config.MaxLength = 128) ∧
        (cfg.BcryptCost = 0 → (NewWithConfig cfg).config.BcryptCost = 12)) ∧
    (∀ (pm : Manager) (cfg : Config), (pm.UpdateConfig cfg).config = cfg) := by
  refine ⟨newWithConfig_cost_bounds, newWithConfig_cost_bounds _, ?_, fun pm cfg => rfl⟩
  intro cfg
  refine ⟨?_, ?_, ?_⟩ <;>
    · intro h
      simp only [NewWithConfig]
      split_ifs <;> simp_all

/-- Witness for the amended C6 at a concrete configuration. -/
theorem cost_range_construction_witness :
    4 ≤ (NewWithConfig badCostCfg).config.BcryptCost ∧
      (NewWithConfig badCostCfg).config.BcryptCost ≤ 31 :=
  cost_range_construction.1 badCostCfg

/-- C3: a plaintext that fails validation makes `Hash` fail with the
`ErrPasswordTooWeak` (`PolicyViolation`) error carrying the comma-joined
violation messages; no `HashedPassword` is produced. -/
theorem hash_policy_violation (cfg : Config) (p : List Nat) (salt : Nat) (now : Int)
    (hv : ((NewWithConfig cfg).Validate p).valid = false) :
    (NewWithConfig cfg).Hash p salt now =
      Except.error (.passwordTooWeak (joinedErrors ((NewWithConfig cfg).Validate p).errors)) := by
  simp only [Manager.Hash, hv]
  rfl

/-- Witness for C3: `"short"` fails the default policy and `Hash` rejects it. -/
theorem hash_policy_violation_witness :
    ((NewWithConfig defaultNewCfg).Validate (strBytes "short")).valid = false ∧
      (NewWithConfig defaultNewCfg).Hash (strBytes "short") 0 0 =
        Except.error (.passwordTooWeak
          (joinedErrors ((NewWithConfig defaultNewCfg).Validate (strBytes "short")).errors)) :=
  ⟨by decide, hash_policy_violation defaultNewCfg (strBytes "short") 0 0 (by decide)⟩

/-- Generation succeeds on a constructed manager: the cost is within bcrypt's
range, so `GenerateFromPassword` returns the encoding of the plaintext's
digest under the configured cost and fresh salt. -/
theorem newWithConfig_generate_ok (cfg : Config) (p : List Nat) (salt : Nat) :
    bcryptGenerateFromPassword p (NewWithConfig cfg).config.BcryptCost salt =
      Except.ok (.bcryptEncoded (NewWithConfig cfg).config.BcryptCost salt p) := by
  have hc := newWithConfig_cost_bounds cfg
  simp only [bcryptGenerateFromPassword, bcryptDigest]
  rw [if_neg (by omega), if_neg (by omega)]

/-- C1: on any constructed policy configuration, a plaintext accepted by
`Validate` is hashed successfully and `Verify` of the same plaintext against
the produced hash returns nil. -/
theorem hash_verify_roundtrip (cfg : Config) (p : List Nat) (salt : Nat) (now : Int)
    (hv : ((NewWithConfig cfg).Validate p).valid = true) :
    ∃ hp : HashedPassword, (NewWithConfig cfg).Hash p salt now = Except.ok hp ∧
      (NewWithConfig cfg).Verify p hp.Hash = none := by
  refine ⟨⟨.bcryptEncoded ((NewWithConfig cfg).config.BcryptCost) salt p, "bcrypt",
      (NewWithConfig cfg).config.BcryptCost, now⟩, ?_, ?_⟩
  · simp only [Manager.Hash, hv, Bool.not_true, Bool.false_eq_true, if_false,
      newWithConfig_generate_ok]
  · simp [Manager.Verify, bcryptCompareHashAndPassword, bcryptDigest]

/-- Witness for C1 on the default policy and plaintext `"Password1"`. -/
theorem hash_verify_roundtrip_witness :
    ((NewWithConfig defaultNewCfg).Validate (strBytes "Password1")).valid = true ∧
      ∃ hp, (NewWithConfig defaultNewCfg).Hash (strBytes "Password1") 0 0 = Except.ok hp ∧
        (NewWithConfig defaultNewCfg).Verify (strBytes "Password1") hp.Hash = none :=
  ⟨by decide, hash_verify_roundtrip defaultNewCfg (strBytes "Password1") 0 0 (by decide)⟩

/-- C5: on any constructed policy configuration, verifying a different
plaintext against the hash of an accepted plaintext fails with the bare
`ErrVerificationFailed`. -/
theorem verify_wrong_password (cfg : Config) (p p2 : List Nat) (salt : Nat) (now : Int)
    (hv : ((NewWithConfig cfg).Validate p).valid = true) (hne : p2 ≠ p) :
    ∃ hp : HashedPassword, (NewWithConfig cfg).Hash p salt now = Except.ok hp ∧
      (NewWithConfig cfg).Verify p2 hp.Hash = some PwErr.verificationFailed := by
  refine ⟨⟨.bcryptEncoded ((NewWithConfig cfg).config.BcryptCost) salt p, "bcrypt",
      (NewWithConfig cfg).config.BcryptCost, now⟩, ?_, ?_⟩
  · simp only [Manager.Hash, hv, Bool.not_true, Bool.false_eq_true, if_false,
      newWithConfig_generate_ok]
  · simp only [Manager.Verify, bcryptCompareHashAndPassword, bcryptDigest]
    rw [if_neg (by simp), if_neg (fun h => hne h.symm)]

/-- Witness for C5: `"Password2"` against the hash of `"Password1"`. -/
theorem verify_wrong_password_witness :
    ((NewWithConfig defaultNewCfg).Validate (strBytes "Password1")).valid = true ∧
      strBytes "Password2" ≠ strBytes "Password1" ∧
      ∃ hp, (NewWithConfig defaultNewCfg).Hash (strBytes "Password1") 0 0 = Except.ok hp ∧
        (NewWithConfig defaultNewCfg).Verify (strBytes "Password2") hp.Hash =
          some PwErr.verificationFailed :=
  ⟨by decide, by decide,
    verify_wrong_password defaultNewCfg (strBytes "Password1") (strBytes "Password2") 0 0
      (by decide) (by decide)⟩

/-- C4 counterexample: a non-empty structurally unreadable hash makes
`Verify` fail with the wrapped `ErrVerificationFailed`, not with
`ErrInvalidHash` as the claim states (`[120, 120]` is the byte string
`"xx"`). -/
theorem verify_taxonomy_counterexample :
    New.Verify [] (EncodedHash.unparsable [120, 120]) =
        some (PwErr.verificationFailedWrapped .hashParseError) ∧
      New.Verify [] (EncodedHash.unparsable [120, 120]) ≠ some PwErr.invalidHash := by
  refine ⟨rfl, by decide⟩

/-- C4 (amended): `Verify` returns `ErrInvalidHash` exactly on the empty
hash; a non-empty unreadable hash yields the wrapped `ErrVerificationFailed`;
a well-formed hash with a mismatched plaintext yields the bare
`ErrVerificationFailed`; and `ErrInvalidHash` is distinguishable from
`ErrVerificationFailed`. -/
theorem verify_error_taxonomy (pm : Manager) (p : List Nat) (h : EncodedHash) :
    (pm.Verify p h = some PwErr.invalidHash ↔ h = EncodedHash.emptyStr) ∧
    (∀ raw : List Nat, pm.Verify p (EncodedHash.unparsable raw) =
        some (PwErr.verificationFailedWrapped .hashParseError)) ∧
    (∀ (c : Int) (s : Nat) (d : List Nat), d ≠ bcryptDigest p c s →
        pm.Verify p (EncodedHash.bcryptEncoded c s d) = some PwErr.verificationFailed) ∧
    PwErr.invalidHash ≠ PwErr.verificationFailed := by
  refine ⟨?_, fun raw => rfl, fun c s d hd => ?_, by decide⟩
  · cases h
    · simp [Manager.Verify]
    · simp only [Manager.Verify, bcryptCompareHashAndPassword]
      split_ifs <;> simp_all
    · simp [Manager.Verify, bcryptCompareHashAndPassword]
  · simp only [Manager.Verify, bcryptCompareHashAndPassword]
    rw [if_neg (by simp), if_neg hd]

/-- Witness for the amended C4 at concrete inputs. -/
theorem verify_error_taxonomy_witness :
    New.Verify [] EncodedHash.emptyStr = some PwErr.invalidHash ∧
      New.Verify [97] (EncodedHash.bcryptEncoded 12 0 [98]) =
        some PwErr.verificationFailed :=
  ⟨(verify_error_taxonomy New [] EncodedHash.emptyStr).1.mpr rfl,
    (verify_error_taxonomy New [97] (EncodedHash.bcryptEncoded 12 0 [98])).2.2.1 12 0 [98]
      (by decide)⟩

/-- Bound-transport for a guarded increment: if the running score is at most
`b` and `k + b ≤ m`, the incremented score is at most `m`. -/
theorem addIf_le_of_le (c : Prop) [Decidable c] (k s b m : Nat)
    (h : s ≤ b) (hk : k + b ≤ m) : addIf c k s ≤ m := by
  unfold addIf
  split <;> omega

/-- The accumulated score never exceeds 10 (the increments total 10). -/
theorem calculateScore_le (p : List Nat) : calculateScore p ≤ 10 := by
  simp only [calculateScore]
  refine addIf_le_of_le _ _ _ 9 _ ?_ (by omega)
  refine addIf_le_of_le _ _ _ 8 _ ?_ (by omega)
  refine addIf_le_of_le _ _ _ 6 _ ?_ (by omega)
  refine addIf_le_of_le _ _ _ 5 _ ?_ (by omega)
  refine addIf_le_of_le _ _ _ 4 _ ?_ (by omega)
  refine addIf_le_of_le _ _ _ 3 _ ?_ (by omega)
  refine addIf_le_of_le _ _ _ 2 _ ?_ (by omega)
  refine addIf_le_of_le _ _ _ 1 _ ?_ (by omega)
  refine addIf_le_of_le _ _ _ 0 _ ?_ (by omega)
  omega

/-- The second component of `calculateStrength` is the accumulated score. -/
theorem calculateStrength_snd (pm : Manager) (p : List Nat) :
    (pm.calculateStrength p).2 = calculateScore p := by
  simp only [Manager.calculateStrength]
  split_ifs <;> rfl

/-- C8: the score computed by `Validate` never exceeds 10, and 10 is
attained (e.g. by `"aB1!aB1!aB1!aB1!"` under the default policy). -/
theorem score_at_most_ten_and_attained :
    (∀ (pm : Manager) (p : List Nat), (pm.Validate p).score ≤ 10) ∧
      (New.Validate (strBytes "aB1!aB1!aB1!aB1!")).score = 10 := by
  refine ⟨fun pm p => ?_, by decide⟩
  rw [validate_score_eq, calculateStrength_snd]
  exact calculateScore_le p

/-- A positive modulus makes `randomInt` return a value below it. -/
theorem randomInt_lt (r n : Nat) (hn : 0 < n) : randomInt r n < n := by
  simp only [randomInt]
  rw [if_neg (by omega)]
  exact Nat.mod_lt _ hn

/-- One required character is drawn per enabled class. -/
theorem drawRequired_length (σ : Nat → Nat) :
    ∀ (i : Nat) (cls : List (List Nat)), (drawRequired σ i cls).length = cls.length := by
  intro i cls
  induction cls generalizing i with
  | nil => rfl
  | cons c rest ih => simp [drawRequired, ih]

/-- The `k`-th required character is drawn from the `k`-th class (which must
be non-empty for the random index to be in range). -/
theorem drawRequired_getD_mem (σ : Nat → Nat) :
    ∀ (cls : List (List Nat)) (i k : Nat), k < cls.length → cls.getD k [] ≠ [] →
      (drawRequired σ i cls).getD k 0 ∈ cls.getD k [] := by
  intro cls
  induction cls with
  | nil => intro i k hk; simp at hk
  | cons c rest ih =>
    intro i k hk hne
    cases k with
    | zero =>
      simp only [List.getD_cons_zero] at hne ⊢
      simp only [drawRequired, List.getD_cons_zero]
      have hpos : 0 < c.length := List.length_pos.mpr hne
      have hidx : randomInt (σ i) c.length < c.length := randomInt_lt _ _ hpos
      rw [List.getD_eq_getElem?_getD, List.getElem?_eq_getElem hidx]
      exact List.getElem_mem hidx
    | succ k =>
      simp only [List.getD_cons_succ] at hne ⊢
      simp only [drawRequired, List.getD_cons_succ]
      exact ih (i + 1) k (by simpa using hk) hne

/-- Swapping two positions preserves the length. -/
theorem listSwap_length (l : List Nat) (i j : Nat) :
    (listSwap l i j).length = l.length := by
  unfold listSwap
  rcases hi : l[i]? with _ | a <;> rcases hj : l[j]? with _ | b <;> simp

/-- Swapping two in-range positions preserves membership. -/
theorem listSwap_mem (l : List Nat) (i j : Nat) (hi : i < l.length) (hj : j < l.length)
    (x : Nat) (hx : x ∈ l) : x ∈ listSwap l i j := by
  have hswap : listSwap l i j = (l.set i l[j]).set j l[i] := by
    unfold listSwap
    rw [List.getElem?_eq_getElem hi, List.getElem?_eq_getElem hj]
  rw [hswap]
  obtain ⟨k, hk⟩ := List.mem_iff_getElem?.mp hx
  by_cases hki : k = i
  · subst hki
    have hx' : x = l[k] := by
      rw [List.getElem?_eq_getElem hi] at hk
      exact (Option.some_inj.mp hk).symm
    apply List.getElem?_mem (n := j)
    rw [List.getElem?_set_self (by simpa using hj), hx']
  · by_cases hkj : k = j
    · subst hkj
      have hx' : x = l[k] := by
        rw [List.getElem?_eq_getElem hj] at hk
        exact (Option.some_inj.mp hk).symm
      apply List.getElem?_mem (n := i)
      rw [List.getElem?_set_ne hki, List.getElem?_set_self hi, hx']
    · apply List.getElem?_mem (n := k)
      rw [List.getElem?_set_ne (fun h => hkj h.symm),
        List.getElem?_set_ne (fun h => hki h.symm)]
      exact hk

/-- The swap fold of the shuffle loop keeps the length and (forward)
membership, as long as every swapped index is in range. -/
theorem swapFold_invariant (n : Nat) (g : Nat → Nat) (hg : ∀ i, i < n → g i < n) :
    ∀ (idxs : List Nat) (acc : List Nat), acc.length = n → (∀ i ∈ idxs, i < n) →
      ((idxs.foldl (fun a i => listSwap a i (g i)) acc).length = n ∧
        ∀ x ∈ acc, x ∈ idxs.foldl (fun a i => listSwap a i (g i)) acc) := by
  intro idxs
  induction idxs with
  | nil => exact fun acc hlen _ => ⟨hlen, fun x hx => hx⟩
  | cons i rest ih =>
    intro acc hlen hmem
    have hi : i < n := hmem i (by simp)
    have h1 : (listSwap acc i (g i)).length = n := by rw [listSwap_length, hlen]
    have hrest : ∀ j ∈ rest, j < n := fun j hj => hmem j (by simp [hj])
    obtain ⟨hl, hm⟩ := ih (listSwap acc i (g i)) h1 hrest
    rw [List.foldl_cons]
    refine ⟨hl, fun x hx => hm x ?_⟩
    exact listSwap_mem acc i (g i) (by omega) (by rw [hlen]; exact hg i hi) x hx

/-- The shuffle loop preserves the length. -/
theorem shuffleAll_length (σ : Nat → Nat) (base : Nat) (l : List Nat) :
    (shuffleAll σ base l).length = l.length := by
  unfold shuffleAll
  exact (swapFold_invariant l.length _
    (fun i hi => randomInt_lt _ _ (by omega)) _ l rfl
    (fun i hi => List.mem_range.mp hi)).1

/-- The shuffle loop preserves membership. -/
theorem shuffleAll_mem (σ : Nat → Nat) (base : Nat) (l : List Nat)
    (x : Nat) (hx : x ∈ l) : x ∈ shuffleAll σ base l := by
  unfold shuffleAll
  exact (swapFold_invariant l.length _
    (fun i hi => randomInt_lt _ _ (by omega)) _ l rfl
    (fun i hi => List.mem_range.mp hi)).2 x hx

/-- The placement stage produces exactly `n` characters. -/
theorem placeAndFill_length (σ : Nat → Nat) (required charset : List Nat) (n : Nat) :
    (placeAndFill σ required charset n).length = n := by
  simp [placeAndFill]

/-- Positions holding required characters survive the placement stage. -/
theorem placeAndFill_getElem (σ : Nat → Nat) (required charset : List Nat) (n k : Nat)
    (hk : k < required.length) (hkn : k < n) :
    (placeAndFill σ required charset n)[k]? = some (required.getD k 0) := by
  simp [placeAndFill, List.getElem?_range, hkn, hk]

/-- Each enabled non-empty class contributes at least one drawn character. -/
theorem required_represents (σ : Nat → Nat) (cfg : Config) (c : List Nat)
    (hc : c ∈ enabledClasses cfg) (hne : c ≠ []) :
    ∃ k, k < enabledCount cfg ∧ (drawRequired σ 0 (enabledClasses cfg)).getD k 0 ∈ c := by
  obtain ⟨k, hk, hkc⟩ := List.mem_iff_getElem.mp hc
  refine ⟨k, hk, ?_⟩
  have hgd : (enabledClasses cfg).getD k [] = c := by
    rw [List.getD_eq_getElem?_getD, List.getElem?_eq_getElem hk, hkc]
    rfl
  have := drawRequired_getD_mem σ (enabledClasses cfg) 0 k hk (by rw [hgd]; exact hne)
  rwa [hgd] at this

/-- Members of the lowercase charset lie in `'a'..'z'`. -/
theorem mem_lowercaseChars (x : Nat) (hx : x ∈ lowercaseChars) :
    (97 ≤ x && x ≤ 122) = true := by
  simp only [lowercaseChars, List.mem_map, List.mem_range] at hx
  obtain ⟨k, hk, rfl⟩ := hx
  simp
  omega

/-- Members of the uppercase charset lie in `'A'..'Z'`. -/
theorem mem_uppercaseChars (x : Nat) (hx : x ∈ uppercaseChars) :
    (65 ≤ x && x ≤ 90) = true := by
  simp only [uppercaseChars, List.mem_map, List.mem_range] at hx
  obtain ⟨k, hk, rfl⟩ := hx
  simp
  omega

/-- Members of the digit charset lie in `'0'..'9'`. -/
theorem mem_digitChars (x : Nat) (hx : x ∈ digitChars) :
    (48 ≤ x && x ≤ 57) = true := by
  simp only [digitChars, List.mem_map, List.mem_range] at hx
  obtain ⟨k, hk, rfl⟩ := hx
  simp
  omega

/-- Every enabled class is one of the four non-empty charsets. -/
theorem enabledClasses_ne_nil (cfg : Config) (c : List Nat) (hc : c ∈ enabledClasses cfg) :
    c ≠ [] := by
  unfold enabledClasses at hc
  split_ifs at hc <;> simp at hc <;> (try casesm* _ ∨ _) <;> subst c <;> decide

/-- Core of the generation argument: whatever the charset and shuffle
randomness, the placed-then-shuffled string has length `n` and passes
`Validate` as soon as `n` accommodates the required draws and respects the
length bounds. -/
theorem generate_core (pm : Manager) (σ τ : Nat → Nat) (n base : Nat) (charset : List Nat)
    (hreq : enabledCount pm.config ≤ n)
    (hmin : pm.config.MinLength ≤ (n : Int)) (hmax : (n : Int) ≤ pm.config.MaxLength) :
    (shuffleAll τ base
        (placeAndFill σ (drawRequired σ 0 (enabledClasses pm.config)) charset n)).length = n ∧
      (pm.Validate (shuffleAll τ base
        (placeAndFill σ (drawRequired σ 0 (enabledClasses pm.config)) charset n))).valid
          = true := by
  have hlen : (shuffleAll τ base
      (placeAndFill σ (drawRequired σ 0 (enabledClasses pm.config)) charset n)).length = n := by
    rw [shuffleAll_length, placeAndFill_length]
  refine ⟨hlen, ?_⟩
  have hclass : ∀ c ∈ enabledClasses pm.config, ∃ x, x ∈ shuffleAll τ base
      (placeAndFill σ (drawRequired σ 0 (enabledClasses pm.config)) charset n) ∧ x ∈ c := by
    intro c hc
    obtain ⟨k, hk, hkc⟩ :=
      required_represents σ pm.config c hc (enabledClasses_ne_nil pm.config c hc)
    have hkr : k < (drawRequired σ 0 (enabledClasses pm.config)).length := by
      rw [drawRequired_length]
      exact hk
    have hkn : k < n := by
      have : enabledCount pm.config = (enabledClasses pm.config).length := rfl
      omega
    refine ⟨(drawRequired σ 0 (enabledClasses pm.config)).getD k 0,
      shuffleAll_mem τ base _ _ ?_, hkc⟩
    exact List.getElem?_mem (placeAndFill_getElem σ _ charset n k hkr hkn)
  rw [validate_valid_iff_aux]
  refine ⟨by omega, by omega, ?_, ?_, ?_, ?_⟩
  · intro hflag
    have hmemc : uppercaseChars ∈ enabledClasses pm.config := by
      simp [enabledClasses, hflag]
    obtain ⟨x, hxs, hxc⟩ := hclass uppercaseChars hmemc
    exact List.any_eq_true.mpr ⟨x, hxs, mem_uppercaseChars x hxc⟩
  · intro hflag
    have hmemc : lowercaseChars ∈ enabledClasses pm.config := by
      simp [enabledClasses, hflag]
    obtain ⟨x, hxs, hxc⟩ := hclass lowercaseChars hmemc
    exact List.any_eq_true.mpr ⟨x, hxs, mem_lowercaseChars x hxc⟩
  · intro hflag
    have hmemc : digitChars ∈ enabledClasses pm.config := by
      simp [enabledClasses, hflag]
    obtain ⟨x, hxs, hxc⟩ := hclass digitChars hmemc
    exact List.any_eq_true.mpr ⟨x, hxs, mem_digitChars x hxc⟩
  · intro hflag
    have hmemc : specialChars ∈ enabledClasses pm.config := by
      simp [enabledClasses, hflag]
    obtain ⟨x, hxs, hxc⟩ := hclass specialChars hmemc
    exact List.any_eq_true.mpr ⟨x, hxs, List.any_eq_true.mpr ⟨x, hxc, by simp⟩⟩

/-- C2 counterexample: under the policy with `MinLength = MaxLength = 2` and
all four classes required, `GenerateRandomPassword 2` (here with raw
randomness constantly 0) returns `"Aa"` — the clamped length 2 cannot hold
one character of each of the four required classes, so the result fails
`Validate`, contradicting the claim. -/
theorem generate_counterexample :
    (NewWithConfig tightCfg).GenerateRandomPassword 2 (fun _ => 0) = some [65, 97] ∧
      ((NewWithConfig tightCfg).Validate [65, 97]).valid = false := by
  exact ⟨by decide, by decide⟩

/-- C2 (amended): whenever the effective policy has `0 ≤ MinLength ≤
MaxLength` and at least as large a `MinLength` as the number of enabled
required classes (all true for any configuration the defaults produce),
`GenerateRandomPassword` returns a string of exactly the clamped length that
itself passes `Validate`. -/
theorem generate_clamped_and_valid (pm : Manager) (len : Int) (σ : Nat → Nat)
    (h0 : 0 ≤ pm.config.MinLength)
    (h1 : pm.config.MinLength ≤ pm.config.MaxLength)
    (h2 : (enabledCount pm.config : Int) ≤ pm.config.MinLength) :
    ∃ s : List Nat, pm.GenerateRandomPassword len σ = some s ∧
      (s.length : Int) = clampLen pm.config len ∧
      (pm.Validate s).valid = true := by
  have hc1 : pm.config.MinLength ≤ clampLen pm.config len := by
    simp only [clampLen]
    split_ifs <;> omega
  have hc2 : clampLen pm.config len ≤ pm.config.MaxLength := by
    simp only [clampLen]
    split_ifs <;> omega
  have hc0 : (0 : Int) ≤ clampLen pm.config len := le_trans h0 hc1
  have core := generate_core pm σ σ (clampLen pm.config len).toNat
    ((drawRequired σ 0 (enabledClasses pm.config)).length +
      ((clampLen pm.config len).toNat - (drawRequired σ 0 (enabledClasses pm.config)).length))
    (if (enabledClasses pm.config).flatten = [] then
        lowercaseChars ++ uppercaseChars ++ digitChars
      else (enabledClasses pm.config).flatten)
    (by omega) (by omega) (by omega)
  simp only [Manager.GenerateRandomPassword]
  rw [if_neg (by omega)]
  exact ⟨_, rfl, by rw [core.1]; omega, core.2⟩

/-- Witness for the amended C2: the default policy, requested length 16. -/
theorem generate_clamped_and_valid_witness :
    ∃ s : List Nat, New.GenerateRandomPassword 16 (fun _ => 0) = some s ∧
      (s.length : Int) = clampLen New.config 16 ∧
      (New.Validate s).valid = true :=
  generate_clamped_and_valid New 16 (fun _ => 0) (by decide) (by decide) (by decide)

/-- C7: `Validate(p).Valid` is true iff the length lies within
`[MinLength, MaxLength]` and every enabled required class is present in `p`;
in particular the computed score and strength tier never influence `Valid`. -/
theorem valid_iff_length_and_classes (pm : Manager) (p : List Nat) :
    (pm.Validate p).valid = true ↔
      (pm.config.MinLength ≤ (p.length : Int) ∧ (p.length : Int) ≤ pm.config.MaxLength ∧
       (pm.config.RequireUpper = true → containsUpper p = true) ∧
       (pm.config.RequireLower = true → containsLower p = true) ∧
       (pm.config.RequireDigit = true → containsDigit p = true) ∧
       (pm.config.RequireSpecial = true → containsSpecial p = true)) :=
  validate_valid_iff_aux pm p

/-- Witness for C7: the characterisation at a concrete policy and input. -/
theorem valid_iff_length_and_classes_witness :
    (New.Validate (strBytes "Password1")).valid = true :=
  (valid_iff_length_and_classes New (strBytes "Password1")).mpr (by decide)

/-- C9 (divergence witness): when `crypto/rand.Read` fails, `randomInt`
silently falls back to the time-derived value — for every nonnegative
timestamp and modulus in `(0, 2^32]`, there are secure-branch bytes giving
exactly the same return value, so nothing observable (no log, flag, error,
or distinct result) marks the degraded mode, contrary to the claim and to
spec sections 4.1/7. -/
theorem randomInt_fallback_indistinguishable (nowNano max : Int)
    (hmax : 0 < max) (hmax32 : max ≤ 2 ^ 32) (hnow : 0 ≤ nowNano) :
    ∃ b0 b1 b2 b3 : Nat, b0 < 256 ∧ b1 < 256 ∧ b2 < 256 ∧ b3 < 256 ∧
      randomIntGo true b0 b1 b2 b3 0 max = randomIntGo false 0 0 0 0 nowNano max := by
  have hr0 : 0 ≤ nowNano.tmod max := Int.tmod_nonneg max hnow
  have hrlt : nowNano.tmod max < max := Int.tmod_lt_of_pos nowNano hmax
  have hr32 : (nowNano.tmod max).toNat < 2 ^ 32 := by omega
  refine ⟨(nowNano.tmod max).toNat / 2 ^ 24 % 256, (nowNano.tmod max).toNat / 2 ^ 16 % 256,
    (nowNano.tmod max).toNat / 2 ^ 8 % 256, (nowNano.tmod max).toNat % 256,
    by omega, by omega, by omega, by omega, ?_⟩
  simp only [randomIntGo, Bool.not_true, Bool.not_false, if_neg (by omega : ¬max ≤ 0)]
  simp only [Bool.false_eq_true, if_false, if_true]
  have hrec : ((nowNano.tmod max).toNat / 2 ^ 24 % 256) % 256 * 2 ^ 24 +
      ((nowNano.tmod max).toNat / 2 ^ 16 % 256) % 256 * 2 ^ 16 +
      ((nowNano.tmod max).toNat / 2 ^ 8 % 256) % 256 * 2 ^ 8 +
      ((nowNano.tmod max).toNat % 256) % 256 = (nowNano.tmod max).toNat := by
    omega
  rw [hrec]
  rw [if_neg (by omega)]
  rw [Int.tmod_eq_of_lt (by omega) (by omega)]
  omega

/-- Witness for the C9 divergence at concrete inputs (timestamp 5, modulus
26, the lowercase charset size). -/
theorem randomInt_fallback_indistinguishable_witness :
    ∃ b0 b1 b2 b3 : Nat, b0 < 256 ∧ b1 < 256 ∧ b2 < 256 ∧ b3 < 256 ∧
      randomIntGo true b0 b1 b2 b3 0 26 = randomIntGo false 0 0 0 0 5 26 :=
  randomInt_fallback_indistinguishable 5 26 (by norm_num) (by norm_num) (by norm_num)

/-- The too-short message always carries byte `'b'` (98) at index 14
(`"Password must b..."`), whatever the rendered bound. -/
theorem tooShortMsg_getElem14 (m : Int) : (tooShortMsg m)[14]? = some 98 := by
  unfold tooShortMsg
  rw [List.append_assoc, List.getElem?_append_left (by decide)]
  decide

/-- The too-long message always carries byte `'n'` (110) at index 14
(`"Password must n..."`), whatever the rendered bound. -/
theorem tooLongMsg_getElem14 (m : Int) : (tooLongMsg m)[14]? = some 110 := by
  unfold tooLongMsg
  rw [List.append_assoc, List.getElem?_append_left (by decide)]
  decide

/-- A message whose 14th byte is not `'b'` is not the too-short message. -/
theorem tooShortMsg_ne (m : Int) (msg : List Nat) (hmsg : msg[14]? ≠ some 98) :
    tooShortMsg m ≠ msg := by
  intro h
  apply hmsg
  rw [← h, tooShortMsg_getElem14]

/-- A list whose members all differ from `'b'` at byte 14 cannot contain
the too-short message. -/
theorem tooShortMsg_not_mem (m : Int) (msgs : List (List Nat))
    (hm : ∀ msg ∈ msgs, msg[14]? ≠ some 98) :
    tooShortMsg m ∉ msgs :=
  fun hmem => hm _ hmem (tooShortMsg_getElem14 m)

/-- A password whose byte length is not below `MinLength` is never flagged
too short, whatever else `Validate` reports. -/
theorem validate_no_short_msg (pm : Manager) (p : List Nat)
    (h : ¬ (p.length : Int) < pm.config.MinLength) :
    tooShortMsg pm.config.MinLength ∉ (pm.Validate p).errors := by
  simp only [Manager.Validate]
  rw [if_neg h]
  split_ifs <;>
    refine tooShortMsg_not_mem _ _ ?_ <;>
    intro msg hmsg <;>
    simp only [List.nil_append, List.mem_append, List.mem_singleton, List.not_mem_nil,
      or_false, false_or] at hmsg <;>
    (try casesm* _ ∨ _) <;>
    (try subst msg) <;>
    first
      | (rw [tooLongMsg_getElem14]; decide)
      | decide

/-- C10: the `MinLength`/`MaxLength` comparisons of `Validate` use the UTF-8
byte length (`len(password)`): a password whose byte length reaches
`MinLength` is never flagged too short, and the valid UTF-8 string `"éééé"` —
only 4 characters but 8 bytes — is not flagged too short under the default
`MinLength` of 8. -/
theorem length_measured_in_bytes :
    (∀ (pm : Manager) (p : List Nat), ¬ (p.length : Int) < pm.config.MinLength →
        tooShortMsg pm.config.MinLength ∉ (pm.Validate p).errors) ∧
      (isValidUtf8 multiBytePw = true ∧ utf8RuneCount multiBytePw < 8 ∧
        8 ≤ multiBytePw.length ∧ New.config.MinLength = 8 ∧
        tooShortMsg New.config.MinLength ∉ (New.Validate multiBytePw).errors) :=
  ⟨validate_no_short_msg, by decide, by decide, by decide, by decide, by decide⟩

/-- Witness for C10 at the concrete multi-byte input. -/
theorem length_measured_in_bytes_witness :
    tooShortMsg New.config.MinLength ∉ (New.Validate multiBytePw).errors :=
  length_measured_in_bytes.1 New multiBytePw (by decide)

end Password
